import Mathlib

/-!
# Verification of the simplePod relate-engine specification

The repository ships only interface material for its topological-relate
subsystem: the C API header `geos_c.h` (predicate and relate entry points,
the `GEOSRelateBoundaryNodeRules` enum, the interruption surface) and the
class headers `EdgeEndBundleStar.h` and `SimplePointInRing.h`.  The
implementations behind those declarations are not part of the shipped
sources, so every operation verified here is modelled from the repository's
specification document, faithful to its words, and the theorems settle the
spec's claims against those models.
-/

namespace SimplePod

/-! ## DE-9IM pattern matching (predicate layer, spec §4.6) -/

/-- Modelled from the spec: the single-cell pattern test
`matches(matrixDigit, patternChar)` of the predicate layer (§4.6); the
implementation behind `GEOSRelatePatternMatch` is absent from the sources.
`*` always true; `F` true iff digit == -1; `T` true iff digit != -1; a
literal digit true iff digit == that digit. -/
def matchesCell (d : Int) (c : Char) : Bool :=
  if c = '*' then true
  else if c = 'F' then d == -1
  else if c = 'T' then d != -1
  else if c = '0' then d == 0
  else if c = '1' then d == 1
  else if c = '2' then d == 2
  else false

/-- Modelled from the spec: a DE-9IM matrix string is over `{0,1,2,F}` (§6);
this decodes one character back to the dimension value of the cell.
Characters outside the alphabet decode to a junk value. -/
def charToDim (c : Char) : Int :=
  if c = 'F' then -1
  else if c = '0' then 0
  else if c = '1' then 1
  else if c = '2' then 2
  else -3

/-- Modelled from the spec: `GEOSRelatePatternMatch` compares a complete
9-character DE-9IM string against a 9-character pattern, cell-wise through
`matches`.  Strings are embedded as lists of characters. -/
def relatePatternMatch (mat pat : List Char) : Bool :=
  mat.length == 9 && pat.length == 9 &&
    (List.zipWith (fun mc pc => matchesCell (charToDim mc) pc) mat pat).all id

/-- The cell-wise reading of the zipped `matches` test. -/
theorem zipWith_matches_all (mat pat : List Char) :
    (List.zipWith (fun mc pc => matchesCell (charToDim mc) pc) mat pat).all id = true ↔
      ∀ i (h1 : i < mat.length) (h2 : i < pat.length),
        matchesCell (charToDim (mat.get ⟨i, h1⟩)) (pat.get ⟨i, h2⟩) = true := by
  induction mat generalizing pat with
  | nil => simp
  | cons m ms ih =>
    cases pat with
    | nil => simp
    | cons p ps =>
      simp only [List.zipWith_cons_cons, List.all_cons, Bool.and_eq_true, id_eq, ih]
      constructor
      · rintro ⟨h0, hrest⟩ i h1 h2
        cases i with
        | zero => exact h0
        | succ j => exact hrest j (Nat.lt_of_succ_lt_succ h1) (Nat.lt_of_succ_lt_succ h2)
      · intro h
        refine ⟨h 0 (Nat.succ_pos _) (Nat.succ_pos _), fun j hj1 hj2 => ?_⟩
        exact h (j + 1) (Nat.succ_lt_succ hj1) (Nat.succ_lt_succ hj2)

/-! ## IntersectionMatrix (spec §3, §4.5) -/

/-- The three topological locations indexing the DE-9IM matrix. -/
inductive Location where
  | interior
  | boundary
  | exterior
  deriving DecidableEq

/-- A DE-9IM intersection matrix: a 3x3 table of dimension values. -/
def IM : Type := Location → Location → Int

/-- Modelled from the spec: the matrix starts with every cell unassigned
(dimension -1); cells never assigned remain -1 (§4.5 step 6). -/
def initIM : IM := fun _ _ => -1

/-- Modelled from the spec: a single contribution step of graph
construction "only sets a cell to the maximum of its current value and the
contributed dimension" (monotonic refinement invariant, §3); the
`IntersectionMatrix` implementation is absent from the sources. -/
def setAtLeast (im : IM) (r c : Location) (d : Int) : IM :=
  fun r' c' => if r' = r ∧ c' = c then max (im r c) d else im r' c'

/-- One contribution: a target cell and a dimension value. -/
structure Contribution where
  row : Location
  col : Location
  dim : Int

/-- Modelled from the spec: the relate computation applies a sequence of
contributions (geometry-dimension seeding, node `updateIM`, edge-label
contributions) to the initial all-(-1) matrix. -/
def applyContribs (cs : List Contribution) : IM :=
  cs.foldl (fun im t => setAtLeast im t.row t.col t.dim) initIM

/-- The dimensions contributed to one given cell, in order. -/
def cellContribs (cs : List Contribution) (r c : Location) : List Int :=
  (cs.filter (fun t => t.row = r ∧ t.col = c)).map Contribution.dim

theorem setAtLeast_self (im : IM) (r c : Location) (d : Int) :
    setAtLeast im r c d r c = max (im r c) d := by
  simp [setAtLeast]

theorem setAtLeast_mono (im : IM) (r c r' c' : Location) (d : Int) :
    im r' c' ≤ setAtLeast im r c d r' c' := by
  unfold setAtLeast
  by_cases h : r' = r ∧ c' = c
  · rcases h with ⟨rfl, rfl⟩
    simp
  · simp [h]

/-- Folding contributions starting from any matrix reads, at each cell, as a
`max`-fold of that cell's contributions over the starting value. -/
theorem applyContribs_cell_general (cs : List Contribution) (im : IM)
    (r c : Location) :
    cs.foldl (fun m t => setAtLeast m t.row t.col t.dim) im r c =
      (cellContribs cs r c).foldl max (im r c) := by
  induction cs generalizing im with
  | nil => simp [cellContribs]
  | cons t ts ih =>
    rw [List.foldl_cons, ih]
    by_cases h : t.row = r ∧ t.col = c
    · obtain ⟨rfl, rfl⟩ := h
      rw [setAtLeast_self im t.row t.col t.dim]
      have hfilter : cellContribs (t :: ts) t.row t.col =
          t.dim :: cellContribs ts t.row t.col := by
        simp [cellContribs, List.filter_cons]
      rw [hfilter, List.foldl_cons]
    · have hcell : setAtLeast im t.row t.col t.dim r c = im r c := by
        unfold setAtLeast
        have hne : ¬(r = t.row ∧ c = t.col) := fun hc => h ⟨hc.1.symm, hc.2.symm⟩
        simp [hne]
      have hfilter : cellContribs (t :: ts) r c = cellContribs ts r c := by
        simp [cellContribs, List.filter_cons, h]
      rw [hcell, hfilter]

/-- C1: for every matrix cell digit in {-1,0,1,2} and every pattern
character, the single-cell test `matchesCell` returns true exactly when the
spec says (`*` always; `F` iff -1; `T` iff not -1; a literal digit iff
equal), and `relatePatternMatch` on a 9-character matrix string and a
9-character pattern string returns true iff `matchesCell` holds cell-wise
at all nine positions. -/
theorem relatePatternMatch_cellwise :
    (∀ (d : Int) (c : Char), d = -1 ∨ d = 0 ∨ d = 1 ∨ d = 2 →
      (matchesCell d c = true ↔
        (c = '*' ∨ (c = 'F' ∧ d = -1) ∨ (c = 'T' ∧ d ≠ -1) ∨
         (c = '0' ∧ d = 0) ∨ (c = '1' ∧ d = 1) ∨ (c = '2' ∧ d = 2)))) ∧
    (∀ (mat pat : List Char), mat.length = 9 → pat.length = 9 →
      (relatePatternMatch mat pat = true ↔
        ∀ i (h1 : i < mat.length) (h2 : i < pat.length),
          matchesCell (charToDim (mat.get ⟨i, h1⟩)) (pat.get ⟨i, h2⟩) = true)) := by
  constructor
  · intro d c _
    unfold matchesCell
    split_ifs with h1 h2 h3 h4 h5 h6 <;> simp_all
  · intro mat pat h1 h2
    have hb : relatePatternMatch mat pat =
        (List.zipWith (fun mc pc => matchesCell (charToDim mc) pc) mat pat).all id := by
      unfold relatePatternMatch
      rw [h1, h2]
      simp
    rw [hb]
    exact zipWith_matches_all mat pat

/-- Witness: the cell test and full pattern match evaluated concretely. -/
theorem relatePatternMatch_cellwise_witness :
    matchesCell 2 '*' = true ∧
      relatePatternMatch ['2','F','F','F','1','F','F','F','2']
        ['T','*','F','*','*','F','F','F','*'] = true := by
  constructor
  · exact (relatePatternMatch_cellwise.1 2 '*' (by norm_num)).mpr (Or.inl rfl)
  · refine (relatePatternMatch_cellwise.2 _ _ (by decide) (by decide)).mpr ?_
    intro i h1 h2
    simp only [List.length_cons, List.length_nil] at h1
    interval_cases i <;> rfl

/-- C4: every IntersectionMatrix contribution step sets its target cell to
the max of the current value and the contributed dimension and never
decreases any cell, so over any sequence of contributions each final cell
is the max of the contributions it saw, and -1 when it saw none. -/
theorem intersectionMatrix_monotone_max :
    (∀ (im : IM) (r c : Location) (d : Int),
      setAtLeast im r c d r c = max (im r c) d) ∧
    (∀ (im : IM) (r c r' c' : Location) (d : Int),
      im r' c' ≤ setAtLeast im r c d r' c') ∧
    (∀ (cs : List Contribution) (r c : Location),
      applyContribs cs r c = (cellContribs cs r c).foldl max (-1)) ∧
    (∀ (cs : List Contribution) (r c : Location),
      cellContribs cs r c = [] → applyContribs cs r c = -1) := by
  have h3 : ∀ (cs : List Contribution) (r c : Location),
      applyContribs cs r c = (cellContribs cs r c).foldl max (-1) := by
    intro cs r c
    exact applyContribs_cell_general cs initIM r c
  refine ⟨setAtLeast_self, setAtLeast_mono, h3, ?_⟩
  intro cs r c hnone
  rw [h3, hnone]
  rfl

/-- Witness: a cell that received no contribution stays at -1. -/
theorem intersectionMatrix_monotone_max_witness :
    applyContribs [⟨Location.interior, Location.interior, 2⟩]
      Location.boundary Location.boundary = -1 :=
  intersectionMatrix_monotone_max.2.2.2 _ _ _ (by decide)

/-! ## Set-theoretic geometry model (spec §3 and glossary) -/

/-- Points of the plane model. -/
abbrev Point : Type := ℤ × ℤ

/-- A point set given by its membership function. -/
abbrev PointSet : Type := Point → Bool

/-- The empty point set. -/
def emptySet : PointSet := fun _ => false

/-- Intersection of two point sets. -/
def interSet (a b : PointSet) : PointSet := fun p => a p && b p

/-- Modelled from the spec: a geometry, as the relate engine reads it, is
the partition of the plane into Interior, Boundary and Exterior point sets
(glossary: DE-9IM is the 3x3 matrix of intersection dimensions between
Interior/Boundary/Exterior of two geometries); the geometry implementation
is absent from the sources. -/
structure Geometry where
  part : Location → PointSet

/-- Modelled from the spec: `computeRelate` produces the matrix whose
(r,c) cell is the dimension of the intersection of A's part r with B's
part c.  The dimension functional on point sets is a parameter of the
model. -/
def relateIM (dim : PointSet → Int) (A B : Geometry) : IM :=
  fun r c => dim (interSet (A.part r) (B.part c))

/-- Transpose of a DE-9IM matrix. -/
def transposeIM (m : IM) : IM := fun r c => m c r

/-- Modelled from the spec: one cell's dimension printed as a DE-9IM
string character over `{0,1,2,F}` (§6). -/
def dimToChar (d : Int) : Char :=
  if d = -1 then 'F'
  else if d = 0 then '0'
  else if d = 1 then '1'
  else if d = 2 then '2'
  else '?'

/-- Modelled from the spec: the row-major 9-character DE-9IM string of a
matrix (Interior-Interior, Interior-Boundary, ..., Exterior-Exterior). -/
def imToChars (m : IM) : List Char :=
  [m Location.interior Location.interior, m Location.interior Location.boundary,
   m Location.interior Location.exterior, m Location.boundary Location.interior,
   m Location.boundary Location.boundary, m Location.boundary Location.exterior,
   m Location.exterior Location.interior, m Location.exterior Location.boundary,
   m Location.exterior Location.exterior].map dimToChar

/-- Modelled from the spec: the fixed DE-9IM pattern of the `disjoint`
predicate (§4.6: named predicates are fixed 9-character patterns). -/
def disjointPattern : List Char := ['F','F','*','F','F','*','*','*','*']

/-- Modelled from the spec: the fixed DE-9IM pattern of `contains`. -/
def containsPattern : List Char := ['T','*','*','*','*','*','F','F','*']

/-- Modelled from the spec: the fixed DE-9IM pattern of `equals`. -/
def equalsPattern : List Char := ['T','*','F','*','*','F','F','F','*']

/-- The `disjoint` predicate of the predicate layer. -/
def disjointPred (m : IM) : Bool := relatePatternMatch (imToChars m) disjointPattern

/-- The `contains` predicate of the predicate layer (`GEOSContains`). -/
def containsPred (m : IM) : Bool := relatePatternMatch (imToChars m) containsPattern

/-- The `equals` predicate of the predicate layer (`GEOSEquals`). -/
def equalsPred (m : IM) : Bool := relatePatternMatch (imToChars m) equalsPattern

theorem charToDim_dimToChar_neg (d : Int) :
    (charToDim (dimToChar d) = -1) ↔ d = -1 := by
  unfold dimToChar charToDim
  split_ifs with h1 h2 h3 h4 <;> simp_all

/-- C2: the DE-9IM matrix is symmetric under swapping the two geometries
and transposing: `relate(B,A) = transpose(relate(A,B))`. -/
theorem relate_swap_transpose (dim : PointSet → Int) (A B : Geometry) :
    relateIM dim B A = transposeIM (relateIM dim A B) := by
  funext r c
  show dim (interSet (B.part r) (A.part c)) = dim (interSet (A.part c) (B.part r))
  congr 1
  funext p
  exact Bool.and_comm _ _

/-! ## Envelopes (bounding boxes) and the disjoint fast fact (spec §8) -/

/-- An axis-aligned bounding box. -/
structure Envelope where
  minx : ℤ
  maxx : ℤ
  miny : ℤ
  maxy : ℤ

/-- Envelope membership test. -/
def envContains (e : Envelope) (p : Point) : Bool :=
  e.minx ≤ p.1 && p.1 ≤ e.maxx && e.miny ≤ p.2 && p.2 ≤ e.maxy

/-- Non-overlap test for two envelopes. -/
def envDisjoint (e1 e2 : Envelope) : Bool :=
  e1.maxx < e2.minx || e2.maxx < e1.minx || e1.maxy < e2.miny || e2.maxy < e1.miny

theorem envDisjoint_no_common (e1 e2 : Envelope) (p : Point)
    (hd : envDisjoint e1 e2 = true) (h1 : envContains e1 p = true)
    (h2 : envContains e2 p = true) : False := by
  unfold envDisjoint at hd
  unfold envContains at h1 h2
  simp only [Bool.or_eq_true, Bool.and_eq_true, decide_eq_true_eq] at hd h1 h2
  omega

/-- A matrix cell between non-exterior parts of geometries confined to
disjoint envelopes is -1. -/
theorem relate_cell_empty_of_env_disjoint (dim : PointSet → Int)
    (A B : Geometry) (eA eB : Envelope)
    (hA : ∀ l : Location, l ≠ Location.exterior →
      ∀ p, A.part l p = true → envContains eA p = true)
    (hB : ∀ l : Location, l ≠ Location.exterior →
      ∀ p, B.part l p = true → envContains eB p = true)
    (hd : envDisjoint eA eB = true)
    (hdim : dim emptySet = -1)
    (l1 l2 : Location) (h1 : l1 ≠ Location.exterior)
    (h2 : l2 ≠ Location.exterior) :
    relateIM dim A B l1 l2 = -1 := by
  show dim (interSet (A.part l1) (B.part l2)) = -1
  have hempty : interSet (A.part l1) (B.part l2) = emptySet := by
    funext p
    show (A.part l1 p && B.part l2 p) = false
    cases ha : A.part l1 p with
    | false => simp
    | true =>
      cases hb : B.part l2 p with
      | false => simp
      | true =>
        exact (envDisjoint_no_common eA eB p hd
          (hA l1 h1 p ha) (hB l2 h2 p hb)).elim
  rw [hempty, hdim]

/-- The disjoint predicate holds exactly when the four
Interior/Boundary cross cells are all -1. -/
theorem disjointPred_iff (m : IM) :
    disjointPred m = true ↔
      (m Location.interior Location.interior = -1 ∧
       m Location.interior Location.boundary = -1 ∧
       m Location.boundary Location.interior = -1 ∧
       m Location.boundary Location.boundary = -1) := by
  unfold disjointPred relatePatternMatch imToChars disjointPattern
  simp [matchesCell, charToDim_dimToChar_neg]

/-- C5: when the two geometries' bounding boxes do not overlap, the relate
matrix has Interior-Interior, Interior-Boundary, Boundary-Interior and
Boundary-Boundary all -1, and the disjoint predicate returns true. -/
theorem disjoint_envelopes_matrix (dim : PointSet → Int) (A B : Geometry)
    (eA eB : Envelope)
    (hA : ∀ l : Location, l ≠ Location.exterior →
      ∀ p, A.part l p = true → envContains eA p = true)
    (hB : ∀ l : Location, l ≠ Location.exterior →
      ∀ p, B.part l p = true → envContains eB p = true)
    (hd : envDisjoint eA eB = true)
    (hdim : dim emptySet = -1) :
    relateIM dim A B Location.interior Location.interior = -1 ∧
    relateIM dim A B Location.interior Location.boundary = -1 ∧
    relateIM dim A B Location.boundary Location.interior = -1 ∧
    relateIM dim A B Location.boundary Location.boundary = -1 ∧
    disjointPred (relateIM dim A B) = true := by
  have hcell := relate_cell_empty_of_env_disjoint dim A B eA eB hA hB hd hdim
  have hII := hcell Location.interior Location.interior (by decide) (by decide)
  have hIB := hcell Location.interior Location.boundary (by decide) (by decide)
  have hBI := hcell Location.boundary Location.interior (by decide) (by decide)
  have hBB := hcell Location.boundary Location.boundary (by decide) (by decide)
  exact ⟨hII, hIB, hBI, hBB, (disjointPred_iff _).mpr ⟨hII, hIB, hBI, hBB⟩⟩

/-- Witness: two empty geometries in separated boxes are disjoint. -/
theorem disjoint_envelopes_matrix_witness :
    relateIM (fun _ => -1) ⟨fun _ _ => false⟩ ⟨fun _ _ => false⟩
      Location.interior Location.interior = -1 ∧
    relateIM (fun _ => -1) ⟨fun _ _ => false⟩ ⟨fun _ _ => false⟩
      Location.interior Location.boundary = -1 ∧
    relateIM (fun _ => -1) ⟨fun _ _ => false⟩ ⟨fun _ _ => false⟩
      Location.boundary Location.interior = -1 ∧
    relateIM (fun _ => -1) ⟨fun _ _ => false⟩ ⟨fun _ _ => false⟩
      Location.boundary Location.boundary = -1 ∧
    disjointPred (relateIM (fun _ => -1) ⟨fun _ _ => false⟩
      ⟨fun _ _ => false⟩) = true :=
  disjoint_envelopes_matrix (fun _ => -1) ⟨fun _ _ => false⟩
    ⟨fun _ _ => false⟩ ⟨0, 1, 0, 1⟩ ⟨5, 6, 5, 6⟩
    (fun _ _ _ hp => absurd hp Bool.false_ne_true)
    (fun _ _ _ hp => absurd hp Bool.false_ne_true)
    (by decide) rfl

/-! ## Relate of a geometry with itself (spec §8, identical squares) -/

theorem interSet_self (s : PointSet) : interSet s s = s := by
  funext p
  exact Bool.and_self _

/-- C6: for two identical geometries whose parts partition the plane and
whose interior, boundary and exterior have the dimensions of a unit square
(2, 1, 2), the relate engine yields exactly the DE-9IM string "2FFF1FFF2"
and the equals predicate returns true. -/
theorem equals_identical_squares (dim : PointSet → Int) (A : Geometry)
    (hdisj : ∀ l1 l2 : Location, l1 ≠ l2 →
      ∀ p, ¬(A.part l1 p = true ∧ A.part l2 p = true))
    (hdim0 : dim emptySet = -1)
    (hdimI : dim (A.part Location.interior) = 2)
    (hdimB : dim (A.part Location.boundary) = 1)
    (hdimE : dim (A.part Location.exterior) = 2) :
    imToChars (relateIM dim A A) = ['2','F','F','F','1','F','F','F','2'] ∧
    equalsPred (relateIM dim A A) = true := by
  have hdiag : ∀ l : Location, relateIM dim A A l l = dim (A.part l) := by
    intro l
    show dim (interSet (A.part l) (A.part l)) = dim (A.part l)
    rw [interSet_self]
  have hoff : ∀ l1 l2 : Location, l1 ≠ l2 → relateIM dim A A l1 l2 = -1 := by
    intro l1 l2 hne
    show dim (interSet (A.part l1) (A.part l2)) = -1
    have hempty : interSet (A.part l1) (A.part l2) = emptySet := by
      funext p
      show (A.part l1 p && A.part l2 p) = false
      cases ha : A.part l1 p with
      | false => simp
      | true =>
        cases hb : A.part l2 p with
        | false => simp
        | true => exact (hdisj l1 l2 hne p ⟨ha, hb⟩).elim
    rw [hempty, hdim0]
  have hstr : imToChars (relateIM dim A A) = ['2','F','F','F','1','F','F','F','2'] := by
    unfold imToChars
    rw [hdiag Location.interior, hdiag Location.boundary, hdiag Location.exterior,
      hoff Location.interior Location.boundary (by decide),
      hoff Location.interior Location.exterior (by decide),
      hoff Location.boundary Location.interior (by decide),
      hoff Location.boundary Location.exterior (by decide),
      hoff Location.exterior Location.interior (by decide),
      hoff Location.exterior Location.boundary (by decide),
      hdimI, hdimB, hdimE]
    rfl
  refine ⟨hstr, ?_⟩
  unfold equalsPred
  rw [hstr]
  rfl

/-- Concrete stand-in for the unit square partition used as a witness:
three pairwise-disjoint parts marked by distinct sample points. -/
def sqGeom : Geometry :=
  ⟨fun l p =>
    match l with
    | Location.interior => decide (p = ((0 : ℤ), (0 : ℤ)))
    | Location.boundary => decide (p = ((1 : ℤ), (0 : ℤ)))
    | Location.exterior =>
        !(decide (p = ((0 : ℤ), (0 : ℤ))) || decide (p = ((1 : ℤ), (0 : ℤ))))⟩

/-- A concrete dimension functional agreeing with a unit square on the
parts of `sqGeom`: interior dimension 2, boundary 1, exterior 2. -/
def sqDim : PointSet → Int :=
  fun s =>
    if s ((0 : ℤ), (0 : ℤ)) then 2
    else if s ((1 : ℤ), (0 : ℤ)) then 1
    else if s ((2 : ℤ), (0 : ℤ)) then 2
    else -1

/-- Witness: the identical-squares scenario evaluated concretely. -/
theorem equals_identical_squares_witness :
    imToChars (relateIM sqDim sqGeom sqGeom) = ['2','F','F','F','1','F','F','F','2'] ∧
    equalsPred (relateIM sqDim sqGeom sqGeom) = true := by
  refine equals_identical_squares sqDim sqGeom ?_ rfl rfl rfl rfl
  intro l1 l2 hne p hp
  obtain ⟨h1, h2⟩ := hp
  cases l1 <;> cases l2 <;> simp_all [sqGeom, Prod.ext_iff]

/-! ## Prepared-geometry fast path (spec §4.7) -/

/-- Modelled from the spec: a prepared geometry wraps a base geometry with
a precomputed spatial index, consumed here through its bounding-box
summary; the prepared-geometry implementation is absent from the
sources. -/
structure PreparedGeometry where
  base : Geometry
  env : Envelope

/-- The unprepared `GEOSContains` result: the predicate layer applied to
the relate engine's matrix. -/
def geosContains (dim : PointSet → Int) (g q : Geometry) : Bool :=
  containsPred (relateIM dim g q)

/-- Modelled from the spec (§4.7): `GEOSPreparedContains` combines cheap
index-based bounding-box rejection with the full relate engine when the
index cannot reject alone. -/
def preparedContains (dim : PointSet → Int) (pg : PreparedGeometry)
    (q : Geometry) (qe : Envelope) : Bool :=
  if envDisjoint pg.env qe then false
  else containsPred (relateIM dim pg.base q)

/-- `contains` is false whenever the Interior-Interior cell is empty. -/
theorem containsPred_false_of_II (m : IM)
    (h : m Location.interior Location.interior = -1) :
    containsPred m = false := by
  unfold containsPred relatePatternMatch imToChars containsPattern
  rw [h]
  simp [matchesCell, charToDim, dimToChar]

/-- C7: the prepared `contains` predicate agrees with the unprepared one
whenever the envelopes soundly bound the geometries; the index only
accelerates, it never changes the boolean. -/
theorem preparedContains_eq_geosContains (dim : PointSet → Int)
    (G Q : Geometry) (eG eQ : Envelope)
    (hG : ∀ l : Location, l ≠ Location.exterior →
      ∀ p, G.part l p = true → envContains eG p = true)
    (hQ : ∀ l : Location, l ≠ Location.exterior →
      ∀ p, Q.part l p = true → envContains eQ p = true)
    (hdim : dim emptySet = -1) :
    preparedContains dim ⟨G, eG⟩ Q eQ = geosContains dim G Q := by
  unfold preparedContains geosContains
  by_cases hd : envDisjoint eG eQ = true
  · rw [if_pos hd]
    have hII := relate_cell_empty_of_env_disjoint dim G Q eG eQ hG hQ hd hdim
      Location.interior Location.interior (by decide) (by decide)
    rw [containsPred_false_of_II _ hII]
  · rw [if_neg hd]

/-- Witness: prepared and unprepared `contains` agree on a concrete
pair. -/
theorem preparedContains_eq_geosContains_witness :
    preparedContains (fun _ => -1) ⟨⟨fun _ _ => false⟩, ⟨0, 1, 0, 1⟩⟩
      ⟨fun _ _ => false⟩ ⟨5, 6, 5, 6⟩ =
    geosContains (fun _ => -1) ⟨fun _ _ => false⟩ ⟨fun _ _ => false⟩ :=
  preparedContains_eq_geosContains (fun _ => -1) ⟨fun _ _ => false⟩
    ⟨fun _ _ => false⟩ ⟨0, 1, 0, 1⟩ ⟨5, 6, 5, 6⟩
    (fun _ _ _ hp => absurd hp Bool.false_ne_true)
    (fun _ _ _ hp => absurd hp Bool.false_ne_true)
    rfl

/-! ## Boundary node rule (spec §4.4, `GEOSRelateBoundaryNodeRules`) -/

/-- The four boundary node rule variants of the
`GEOSRelateBoundaryNodeRules` enum in `geos_c.h`. -/
inductive BoundaryNodeRule where
  | mod2
  | endPoint
  | multivalentEndPoint
  | monovalentEndPoint
  deriving DecidableEq

/-- The integer code of each rule, from the `GEOSRelateBoundaryNodeRules`
enum in `geos_c.h` (OGC is the same code as MOD2). -/
def BoundaryNodeRule.code : BoundaryNodeRule → Int
  | BoundaryNodeRule.mod2 => 1
  | BoundaryNodeRule.endPoint => 2
  | BoundaryNodeRule.multivalentEndPoint => 3
  | BoundaryNodeRule.monovalentEndPoint => 4

/-- Modelled from the spec (§4.4): the pure classification
`isInBoundary(edgeDegreeAtNode)` of each rule; the implementations behind
the enum constants are absent from the sources. -/
def isInBoundary : BoundaryNodeRule → Nat → Bool
  | BoundaryNodeRule.mod2, deg => deg % 2 == 1
  | BoundaryNodeRule.endPoint, _ => true
  | BoundaryNodeRule.multivalentEndPoint, deg => decide (1 < deg)
  | BoundaryNodeRule.monovalentEndPoint, deg => deg == 1

/-- C3: each boundary node rule is a pure function of the edge degree —
Mod2/OGC: boundary iff the degree is odd; EndPoint: always boundary;
MultivalentEndPoint: boundary iff degree > 1; MonovalentEndPoint: boundary
iff degree = 1 — and at a degree-4 node Mod2 answers Interior while
EndPoint answers Boundary. -/
theorem boundaryNodeRule_spec :
    (∀ deg : Nat,
      isInBoundary BoundaryNodeRule.mod2 deg = true ↔ Odd deg) ∧
    (∀ deg : Nat, isInBoundary BoundaryNodeRule.endPoint deg = true) ∧
    (∀ deg : Nat,
      isInBoundary BoundaryNodeRule.multivalentEndPoint deg = true ↔ 1 < deg) ∧
    (∀ deg : Nat,
      isInBoundary BoundaryNodeRule.monovalentEndPoint deg = true ↔ deg = 1) ∧
    isInBoundary BoundaryNodeRule.mod2 4 = false ∧
    isInBoundary BoundaryNodeRule.endPoint 4 = true := by
  refine ⟨fun deg => ?_, fun _ => rfl, fun deg => by simp [isInBoundary],
    fun deg => by simp [isInBoundary], rfl, rfl⟩
  simp [isInBoundary, Nat.odd_iff]

/-! ## Interrupt handling (spec §5, §7; `geos_c.h` interruption surface) -/

/-- The error taxonomy of the relate engine (spec §7): invalid input,
topology exception, cancellation. -/
inductive RelateError where
  | invalidInput
  | topologyException
  | cancelled
  deriving DecidableEq

/-- Modelled from the spec (§5): the engine polls the process-wide
interrupt flag cooperatively at defined checkpoints; `flag i` is the flag
as observed at the i-th poll.  `relateLoop flag i n m` runs the remaining
`n` checkpointed phases, delivering the finished matrix `m` only if no
poll sees the flag raised; the engine implementation is absent from the
sources. -/
def relateLoop (flag : Nat → Bool) (i : Nat) : Nat → IM → Except RelateError IM
  | 0, m => Except.ok m
  | n + 1, m =>
      if flag i then Except.error RelateError.cancelled
      else relateLoop flag (i + 1) n m

/-- Modelled from the spec: `computeRelate` with cooperative interruption,
running `n` checkpointed phases to produce the matrix `m`. -/
def computeRelate (flag : Nat → Bool) (n : Nat) (m : IM) : Except RelateError IM :=
  relateLoop flag 0 n m

theorem relateLoop_cancelled (flag : Nat → Bool) :
    ∀ (n i : Nat) (m : IM) (k : Nat), k < n → flag (i + k) = true →
      relateLoop flag i n m = Except.error RelateError.cancelled := by
  intro n
  induction n with
  | zero =>
    intro i m k hk
    exact absurd hk (Nat.not_lt_zero k)
  | succ n ih =>
    intro i m k hk hflag
    simp only [relateLoop]
    cases hf : flag i with
    | true => simp
    | false =>
      simp only [Bool.false_eq_true, if_false]
      obtain ⟨j, rfl⟩ : ∃ j, k = j + 1 := by
        cases k with
        | zero =>
          rw [Nat.add_zero] at hflag
          rw [hflag] at hf
          cases hf
        | succ j => exact ⟨j, rfl⟩
      refine ih (i + 1) m j (by omega) ?_
      rw [show i + 1 + j = i + (j + 1) by omega]
      exact hflag

/-- C8: if the cooperative interrupt flag is observed raised at a
checkpoint within the computation, the engine returns the explicit
cancellation error — distinct from the invalid-input and
topology-exception errors — and never a matrix presented as a valid
result. -/
theorem interrupt_cancels_relate (flag : Nat → Bool) (n : Nat) (m : IM)
    (k : Nat) (hk : k < n) (hflag : flag k = true) :
    computeRelate flag n m = Except.error RelateError.cancelled ∧
    (∀ im : IM, computeRelate flag n m ≠ Except.ok im) ∧
    RelateError.cancelled ≠ RelateError.invalidInput ∧
    RelateError.cancelled ≠ RelateError.topologyException := by
  have h : computeRelate flag n m = Except.error RelateError.cancelled :=
    relateLoop_cancelled flag n 0 m k hk (by simpa using hflag)
  refine ⟨h, ?_, by decide, by decide⟩
  intro im hok
  rw [h] at hok
  cases hok

/-- Witness: a raised flag cancels a three-phase computation. -/
theorem interrupt_cancels_relate_witness :
    computeRelate (fun _ => true) 3 initIM = Except.error RelateError.cancelled ∧
    (∀ im : IM, computeRelate (fun _ => true) 3 initIM ≠ Except.ok im) ∧
    RelateError.cancelled ≠ RelateError.invalidInput ∧
    RelateError.cancelled ≠ RelateError.topologyException :=
  interrupt_cancels_relate (fun _ => true) 3 initIM 0 (by decide) rfl

/-! ## EdgeEndBundleStar angular order (EdgeEndBundleStar.h, spec §4.2) -/

/-- An EdgeEndBundle abstracted to its angular direction around the node
(CCW from the positive x-axis) and the number of coincident same-direction
edge-ends merged into it. -/
structure EdgeEndBundle where
  angle : ℚ
  ends : Nat

/-- Modelled from the spec (§4.2): `EdgeEndBundleStar::insert` finds the
bundle matching the edge-end's direction — direction equality uses a fixed
small epsilon, not exact equality — and merges into it, otherwise creates
a new bundle at its angle-sorted position; the implementation behind
`EdgeEndBundleStar.h` is absent from the sources. -/
def insertEdgeEnd (eps a : ℚ) : List EdgeEndBundle → List EdgeEndBundle
  | [] => [⟨a, 1⟩]
  | b :: rest =>
      if |a - b.angle| ≤ eps then ⟨b.angle, b.ends + 1⟩ :: rest
      else if a < b.angle then ⟨a, 1⟩ :: b :: rest
      else b :: insertEdgeEnd eps a rest

/-- The CCW sequence of bundle angles of a star. -/
def starAngles (l : List EdgeEndBundle) : List ℚ := l.map EdgeEndBundle.angle

theorem mem_starAngles_insert (eps a : ℚ) (l : List EdgeEndBundle) (x : ℚ)
    (hx : x ∈ starAngles (insertEdgeEnd eps a l)) :
    x = a ∨ x ∈ starAngles l := by
  induction l with
  | nil => simpa [insertEdgeEnd, starAngles] using hx
  | cons b rest ih =>
    unfold insertEdgeEnd at hx
    split_ifs at hx with h1 h2
    · simp only [starAngles, List.map_cons, List.mem_cons] at hx ⊢
      tauto
    · simp only [starAngles, List.map_cons, List.mem_cons] at hx ⊢
      tauto
    · simp only [starAngles, List.map_cons, List.mem_cons] at hx ⊢
      rcases hx with h | h
      · tauto
      · rcases ih h with h' | h' <;> tauto

/-- C9: after every insert, the bundle star's angles remain in strict CCW
order — no two distinct bundles at the same angle — and an edge-end whose
direction matches an existing bundle within epsilon is merged into it,
leaving the angle sequence unchanged rather than adding a bundle. -/
theorem bundleStar_insert_sorted (eps a : ℚ) (l : List EdgeEndBundle)
    (heps : 0 ≤ eps) (hsorted : (starAngles l).Pairwise (· < ·)) :
    (starAngles (insertEdgeEnd eps a l)).Pairwise (· < ·) ∧
      ((∃ b ∈ l, |a - b.angle| ≤ eps) →
        starAngles (insertEdgeEnd eps a l) = starAngles l) := by
  induction l with
  | nil =>
    refine ⟨by simp [insertEdgeEnd, starAngles], ?_⟩
    rintro ⟨b, hb, -⟩
    cases hb
  | cons b rest ih =>
    rw [starAngles, List.map_cons, List.pairwise_cons] at hsorted
    obtain ⟨hhead, htail⟩ := hsorted
    have htail' : (starAngles rest).Pairwise (· < ·) := htail
    unfold insertEdgeEnd
    split_ifs with h1 h2
    · -- merged into the head bundle: angles unchanged
      constructor
      · show (b.angle :: starAngles rest).Pairwise (· < ·)
        exact List.pairwise_cons.mpr ⟨hhead, htail'⟩
      · intro
        rfl
    · -- new bundle inserted before the head
      have hb2 : b.angle ≤ a → False := by
        intro hba
        rcases lt_or_eq_of_le hba with hlt | heq
        · exact absurd hlt (not_lt_of_lt h2)
        · exact h1 (by rw [← heq]; simpa using heps)
      constructor
      · show (a :: b.angle :: starAngles rest).Pairwise (· < ·)
        refine List.pairwise_cons.mpr ⟨?_, List.pairwise_cons.mpr ⟨hhead, htail'⟩⟩
        intro x hxmem
        rcases List.mem_cons.mp hxmem with rfl | hx
        · exact h2
        · exact lt_trans h2 (hhead x hx)
      · rintro ⟨b', hb', hnear⟩
        exfalso
        rcases List.mem_cons.mp hb' with rfl | hb'rest
        · exact h1 hnear
        · have hba : b.angle < b'.angle := hhead b'.angle (List.mem_map_of_mem _ hb'rest)
          have : b'.angle - a ≤ eps := le_trans (le_abs_self _) (by rwa [abs_sub_comm] at hnear)
          have hgap : eps < b.angle - a := by
            have := h1
            rw [abs_of_nonpos (by linarith : a - b.angle ≤ 0)] at this
            linarith [not_le.mp this]
          linarith
    · -- head keeps its place; insert into the tail
      have hba : b.angle < a := by
        rcases lt_trichotomy a b.angle with h | h | h
        · exact absurd h h2
        · exact absurd (by rw [h]; simpa using heps) h1
        · exact h
      obtain ⟨ihs, ihm⟩ := ih htail'
      constructor
      · show (b.angle :: starAngles (insertEdgeEnd eps a rest)).Pairwise (· < ·)
        refine List.pairwise_cons.mpr ⟨?_, ihs⟩
        intro x hx
        rcases mem_starAngles_insert eps a rest x hx with rfl | hxrest
        · exact hba
        · exact hhead x hxrest
      · rintro ⟨b', hb', hnear⟩
        rcases List.mem_cons.mp hb' with rfl | hb'rest
        · exact absurd hnear h1
        · show b.angle :: starAngles (insertEdgeEnd eps a rest) = b.angle :: starAngles rest
          rw [ihm ⟨b', hb'rest, hnear⟩]

/-- Witness: inserting a fresh direction between two bundles keeps strict
order, and the merge clause is available on the concrete star. -/
theorem bundleStar_insert_sorted_witness :
    (starAngles (insertEdgeEnd (1/10) (1/2) [⟨0, 1⟩, ⟨1, 1⟩])).Pairwise (· < ·) ∧
      ((∃ b ∈ [(⟨0, 1⟩ : EdgeEndBundle), ⟨1, 1⟩], |1/2 - b.angle| ≤ 1/10) →
        starAngles (insertEdgeEnd (1/10) (1/2) [⟨0, 1⟩, ⟨1, 1⟩]) =
          starAngles [⟨0, 1⟩, ⟨1, 1⟩]) :=
  bundleStar_insert_sorted (1/10) (1/2) [⟨0, 1⟩, ⟨1, 1⟩] (by norm_num)
    (by norm_num [starAngles, List.pairwise_cons])

/-! ## C API return-code encoding (`geos_c.h` spatial predicates) -/

/-- Modelled from the header contract in `geos_c.h`: a boolean spatial
predicate at the C interface encodes its outcome in one return byte —
1 on true, 0 on false, 2 on exception. -/
def predicateReturnCode : Except RelateError Bool → Nat
  | Except.ok true => 1
  | Except.ok false => 0
  | Except.error _ => 2

/-- Modelled from the header contract in `geos_c.h`: `GEOSRelate` returns
the DE-9IM string, or NULL (`none` here) on exception. -/
def relateReturn : Except RelateError (List Char) → Option (List Char)
  | Except.ok s => some s
  | Except.error _ => none

/-- C10: every predicate return code is one of 0, 1, 2; code 2 occurs
exactly on exceptions, 0 exactly on a valid false and 1 exactly on a valid
true — failures are distinguishable from a valid boolean false — and
`GEOSRelate` yields no string exactly on exception. -/
theorem c_api_return_codes :
    (∀ r : Except RelateError Bool,
      (predicateReturnCode r = 0 ∨ predicateReturnCode r = 1 ∨
        predicateReturnCode r = 2) ∧
      (predicateReturnCode r = 2 ↔ ∃ e, r = Except.error e) ∧
      (predicateReturnCode r = 0 ↔ r = Except.ok false) ∧
      (predicateReturnCode r = 1 ↔ r = Except.ok true)) ∧
    (∀ s : Except RelateError (List Char),
      relateReturn s = none ↔ ∃ e, s = Except.error e) := by
  constructor
  · intro r
    cases r with
    | error e => simp [predicateReturnCode]
    | ok b => cases b <;> simp [predicateReturnCode]
  · intro s
    cases s with
    | error e => simp [relateReturn]
    | ok v => simp [relateReturn]

end SimplePod
